import Mathlib

/-!
Verification development for the videoX frontend edit-session engine and
extraction pipeline (frontend/src/lib/features/shot/useShotManager.ts,
frontend/src/lib/features/shot/shotApi.ts, frontend/src/app/editor/page.tsx).

The TypeScript code is shallowly embedded: React state updates become
explicit state passing, debounce timers become an explicit pending-timer
table, network calls become emitted request values against an oracle for
the response, and the JavaScript runtime primitives the code relies on
(String.prototype.trim/startsWith/endsWith/includes, the two regular
expressions used by the extraction parser, JSON.parse / JSON.stringify,
Object.keys, and `||` truthiness) are modelled by executable Lean
functions below.  JSON numbers are modelled as exact decimals
(sign, mantissa, power of ten) rather than IEEE doubles; on the inputs
used in this file the two agree.
-/

namespace VideoX

/-! ## JavaScript string primitives -/

/-- Whitespace recognised by `String.prototype.trim` (the ASCII part,
which is all the sources ever produce). -/
def jsWs (c : Char) : Bool :=
  [' ', '\t', '\n', '\r', '\x0b', '\x0c'].contains c

/-- `String.prototype.trim` on a character list. -/
def jsTrim (l : List Char) : List Char :=
  ((l.dropWhile jsWs).reverse.dropWhile jsWs).reverse

/-- `String.prototype.trim`. -/
def jsTrimS (s : String) : String :=
  String.mk (jsTrim s.toList)

/-- `String.prototype.startsWith`. -/
def jsStartsWith (s pre : List Char) : Bool :=
  pre.isPrefixOf s

/-- `String.prototype.endsWith`. -/
def jsEndsWith (s suf : List Char) : Bool :=
  suf.isSuffixOf s

/-- Index of the first occurrence of `needle` in `hay`
(`String.prototype.indexOf`), `none` when absent. -/
def findSub (hay needle : List Char) : Option Nat :=
  if needle.isPrefixOf hay then some 0
  else
    match hay with
    | [] => none
    | _ :: rest => (findSub rest needle).map (fun n => n + 1)

/-- `String.prototype.includes`. -/
def jsIncludes (hay needle : List Char) : Bool :=
  (findSub hay needle).isSome

/-! ## JSON values (`JSON.parse` / `JSON.stringify`) -/

/-- A parsed JSON value.  Numbers are exact decimals
`(-1)^neg * m * 10^e` kept normalised (`m = 0 → ¬neg ∧ e = 0`,
`m ≠ 0 → ¬(10 ∣ m)`). -/
inductive JVal where
  | null : JVal
  | bool (b : Bool) : JVal
  | num (neg : Bool) (m : Nat) (e : Int) : JVal
  | str (s : String) : JVal
  | arr (elems : List JVal) : JVal
  | obj (members : List (String × JVal)) : JVal
deriving Repr, Inhabited

/-- JSON whitespace (RFC 8259 / `JSON.parse`). -/
def jsonWs (c : Char) : Bool :=
  [' ', '\t', '\n', '\r'].contains c

/-- Skip JSON whitespace. -/
def skipWs : List Char → List Char
  | [] => []
  | c :: rest => if jsonWs c then skipWs rest else c :: rest

/-- Decimal digit value of a character. -/
def digitVal (c : Char) : Option Nat :=
  if '0' ≤ c ∧ c ≤ '9' then some (c.toNat - 48) else none

/-- Hexadecimal digit value of a character. -/
def hexVal (c : Char) : Option Nat :=
  if '0' ≤ c ∧ c ≤ '9' then some (c.toNat - 48)
  else if 'a' ≤ c ∧ c ≤ 'f' then some (c.toNat - 87)
  else if 'A' ≤ c ∧ c ≤ 'F' then some (c.toNat - 55)
  else none

/-- Take a maximal run of decimal digits. -/
def takeDigits : List Char → (List Nat × List Char)
  | [] => ([], [])
  | c :: rest =>
    match digitVal c with
    | some d => let p := takeDigits rest; (d :: p.1, p.2)
    | none => ([], c :: rest)

/-- Digits to the natural number they denote. -/
def digitsToNat (ds : List Nat) : Nat :=
  ds.foldl (fun a d => a * 10 + d) 0

/-- Strip factors of ten out of the mantissa (fuel-bounded). -/
def normNum : Nat → Nat → Int → Nat × Int
  | 0, m, e => (m, e)
  | fuel + 1, m, e =>
    if m ≠ 0 ∧ m % 10 = 0 then normNum fuel (m / 10) (e + 1) else (m, e)

/-- Parse the body of a JSON string after the opening quote. -/
def parseStrAux : Nat → List Char → List Char → Option (String × List Char)
  | 0, _, _ => none
  | fuel + 1, acc, cs =>
    match cs with
    | [] => none
    | '"' :: rest => some (String.mk acc.reverse, rest)
    | '\\' :: c :: rest =>
      match c with
      | '"' => parseStrAux fuel ('"' :: acc) rest
      | '\\' => parseStrAux fuel ('\\' :: acc) rest
      | '/' => parseStrAux fuel ('/' :: acc) rest
      | 'b' => parseStrAux fuel ('\x08' :: acc) rest
      | 'f' => parseStrAux fuel ('\x0c' :: acc) rest
      | 'n' => parseStrAux fuel ('\n' :: acc) rest
      | 'r' => parseStrAux fuel ('\r' :: acc) rest
      | 't' => parseStrAux fuel ('\t' :: acc) rest
      | 'u' =>
        match rest with
        | h1 :: h2 :: h3 :: h4 :: rest2 =>
          match hexVal h1, hexVal h2, hexVal h3, hexVal h4 with
          | some a, some b, some c3, some d =>
            parseStrAux fuel (Char.ofNat (a * 4096 + b * 256 + c3 * 16 + d) :: acc) rest2
          | _, _, _, _ => none
        | _ => none
      | _ => none
    | c :: rest =>
      if c.toNat < 32 then none else parseStrAux fuel (c :: acc) rest

/-- Parse a JSON number. -/
def parseNum (cs : List Char) : Option (JVal × List Char) :=
  let p1 : Bool × List Char :=
    match cs with
    | '-' :: r => (true, r)
    | _ => (false, cs)
  let neg := p1.1
  let intRes : Option (List Nat × List Char) :=
    match p1.2 with
    | '0' :: r =>
      match r with
      | c :: _ => if (digitVal c).isSome then none else some ([0], r)
      | [] => some ([0], [])
    | c :: r =>
      match digitVal c with
      | some d => if d = 0 then none else (let p := takeDigits r; some (d :: p.1, p.2))
      | none => none
    | [] => none
  match intRes with
  | none => none
  | some (ids, cs2) =>
    let fracRes : Option (List Nat × List Char) :=
      match cs2 with
      | '.' :: r => let p := takeDigits r; if p.1 = [] then none else some p
      | _ => some ([], cs2)
    match fracRes with
    | none => none
    | some (fds, cs3) =>
      let expRes : Option (Int × List Char) :=
        match cs3 with
        | e :: r =>
          if e = 'e' ∨ e = 'E' then
            let p2 : Int × List Char :=
              match r with
              | '+' :: r2 => (1, r2)
              | '-' :: r2 => (-1, r2)
              | _ => (1, r)
            let p := takeDigits p2.2
            if p.1 = [] then none else some (p2.1 * (digitsToNat p.1 : Int), p.2)
          else some (0, cs3)
        | [] => some (0, [])
      match expRes with
      | none => none
      | some (ex, cs4) =>
        let m0 := digitsToNat (ids ++ fds)
        let e0 : Int := ex - (fds.length : Int)
        let q := normNum m0 m0 e0
        some (.num (neg && !(q.1 == 0)) q.1 (if q.1 == 0 then 0 else q.2), cs4)

/-- JavaScript object-assignment semantics for JSON object members:
a repeated key keeps its original position and takes the later value. -/
def insertKV : List (String × JVal) → String → JVal → List (String × JVal)
  | [], k, v => [(k, v)]
  | (k0, v0) :: rest, k, v =>
    if k0 = k then (k, v) :: rest else (k0, v0) :: insertKV rest k v

/-- What the recursive-descent JSON parser is currently parsing:
a value, the remaining elements of an array, or the remaining members
of an object (with the accumulator collected so far). -/
inductive PMode where
  | val : PMode
  | elems (acc : List JVal) : PMode
  | members (acc : List (String × JVal)) : PMode

/-- Fuel-bounded recursive descent for `JSON.parse`, written as a single
structurally recursive function so that it reduces definitionally. -/
def parseAux : Nat → PMode → List Char → Option (JVal × List Char)
  | 0, _, _ => none
  | fuel + 1, .val, cs =>
    match skipWs cs with
    | 'n' :: 'u' :: 'l' :: 'l' :: rest => some (.null, rest)
    | 't' :: 'r' :: 'u' :: 'e' :: rest => some (.bool true, rest)
    | 'f' :: 'a' :: 'l' :: 's' :: 'e' :: rest => some (.bool false, rest)
    | '"' :: rest =>
      (match parseStrAux (rest.length + 1) [] rest with
       | some (s, r) => some (.str s, r)
       | none => none)
    | '[' :: rest =>
      (match skipWs rest with
       | ']' :: r2 => some (.arr [], r2)
       | r1 => parseAux fuel (.elems []) r1)
    | '\x7b' :: rest =>
      (match skipWs rest with
       | '\x7d' :: r2 => some (.obj [], r2)
       | r1 => parseAux fuel (.members []) r1)
    | other => parseNum other
  | fuel + 1, .elems acc, cs =>
    (match parseAux fuel .val cs with
     | none => none
     | some (v, rest) =>
       match skipWs rest with
       | ',' :: r2 => parseAux fuel (.elems (v :: acc)) r2
       | ']' :: r2 => some (.arr (v :: acc).reverse, r2)
       | _ => none)
  | fuel + 1, .members acc, cs =>
    (match skipWs cs with
     | '"' :: r1 =>
       (match parseStrAux (r1.length + 1) [] r1 with
        | none => none
        | some (k, r2) =>
          match skipWs r2 with
          | ':' :: r3 =>
            (match parseAux fuel .val r3 with
             | none => none
             | some (v, r4) =>
               match skipWs r4 with
               | ',' :: r5 => parseAux fuel (.members (insertKV acc k v)) r5
               | '\x7d' :: r5 => some (.obj (insertKV acc k v), r5)
               | _ => none)
          | _ => none)
     | _ => none)

/-- `JSON.parse`: `none` models a thrown `SyntaxError`. -/
def jsonParse (s : String) : Option JVal :=
  let cs := s.toList
  match parseAux (2 * cs.length + 2) .val cs with
  | some (v, rest) => if skipWs rest = [] then some v else none
  | none => none

/-- Lower-case hexadecimal digit. -/
def hexDigit (n : Nat) : Char :=
  if n < 10 then Char.ofNat (48 + n) else Char.ofNat (87 + n)

/-- `JSON.stringify` escaping of one string character. -/
def escChar (c : Char) : List Char :=
  if c = '"' then ['\\', '"']
  else if c = '\\' then ['\\', '\\']
  else if c = '\x08' then ['\\', 'b']
  else if c = '\x0c' then ['\\', 'f']
  else if c = '\n' then ['\\', 'n']
  else if c = '\r' then ['\\', 'r']
  else if c = '\t' then ['\\', 't']
  else if c.toNat < 32 then
    ['\\', 'u', '0', '0', hexDigit (c.toNat / 16), hexDigit (c.toNat % 16)]
  else [c]

/-- `JSON.stringify` of a string, with the surrounding quotes. -/
def stringifyStr (s : String) : List Char :=
  '"' :: (s.toList.flatMap escChar) ++ ['"']

/-- Decimal digits of a natural number. -/
def natDigits (m : Nat) : List Char :=
  Nat.toDigits 10 m

/-- ECMAScript `Number::toString` restricted to exact decimals:
agrees with JavaScript whenever the decimal is exactly representable
as a double (in particular on every number appearing in this file). -/
def stringifyNum (neg : Bool) (m : Nat) (e : Int) : List Char :=
  if m = 0 then ['0']
  else
    let ds := natDigits m
    let k : Int := ds.length
    let n : Int := k + e
    let core : List Char :=
      if 0 < n ∧ n ≤ 21 ∧ 0 ≤ e then ds ++ List.replicate e.toNat '0'
      else if 0 < n ∧ n ≤ 21 then ds.take n.toNat ++ '.' :: ds.drop n.toNat
      else if -6 < n ∧ n ≤ 0 then
        '0' :: '.' :: List.replicate (-n).toNat '0' ++ ds
      else
        let expo := n - 1
        let mantissa :=
          match ds with
          | [] => []
          | d :: [] => [d]
          | d :: rest => d :: '.' :: rest
        mantissa ++ 'e' :: (if 0 ≤ expo then ['+'] else []) ++ expo.repr.toList
    if neg then '-' :: core else core

mutual

/-- `JSON.stringify` (no indentation), characters. -/
def stringifyVal : JVal → List Char
  | .null => "null".toList
  | .bool true => "true".toList
  | .bool false => "false".toList
  | .num neg m e => stringifyNum neg m e
  | .str s => stringifyStr s
  | .arr xs => '[' :: stringifyArr xs ++ [']']
  | .obj kvs => '\x7b' :: stringifyObj kvs ++ ['\x7d']

/-- Comma-joined array elements. -/
def stringifyArr : List JVal → List Char
  | [] => []
  | [x] => stringifyVal x
  | x :: y :: rest => stringifyVal x ++ ',' :: stringifyArr (y :: rest)

/-- Comma-joined object members. -/
def stringifyObj : List (String × JVal) → List Char
  | [] => []
  | [(k, v)] => stringifyStr k ++ ':' :: stringifyVal v
  | (k, v) :: m :: rest =>
    stringifyStr k ++ ':' :: stringifyVal v ++ ',' :: stringifyObj (m :: rest)

end

/-- `JSON.stringify` as a string. -/
def jsonStringify (v : JVal) : String :=
  String.mk (stringifyVal v)

/-! ## Edit-session store (useShotManager.ts)

React state is threaded explicitly.  A `useCallback` closure created by
the previous render reads the state as of that render; between two user
events React re-renders, so in this sequential-event embedding the
closure's `shots` is the current state. -/

/-- A shot record (`Shot` in shotApi.ts). -/
structure Shot where
  shot_id : Nat
  order : Int
  content : String
  t2i_prompt : Option String
  characters : Option (List String)
deriving Repr, DecidableEq

/-- A partial update, `Partial<Pick<Shot, 'content' | 't2i_prompt' |
'characters'>>`; `none` is an absent property. -/
structure ShotPatch where
  content : Option String
  t2i_prompt : Option String
  characters : Option (List String)
deriving Repr, DecidableEq

/-- The object spread `\x7b ...shot, ...updates \x7d`. -/
def applyPatch (s : Shot) (p : ShotPatch) : Shot :=
  { s with
    content := p.content.getD s.content,
    t2i_prompt := match p.t2i_prompt with | some v => some v | none => s.t2i_prompt,
    characters := match p.characters with | some v => some v | none => s.characters }

/-- The content/t2i_prompt/characters fields of a full shot record, as the
update object `\x7b ...shotToSave, ...updates \x7d` hands them to `saveShot`. -/
def shotAsPatch (s : Shot) : ShotPatch :=
  ⟨some s.content, s.t2i_prompt, s.characters⟩

/-- A request issued to the Persistence Gateway. -/
inductive NetRequest where
  | putShot (shot_id : Nat) (project_id : Nat) (payload : ShotPatch)
  | deleteShotReq (shot_id : Nat) (project_id : Nat)
deriving Repr, DecidableEq

/-- `saveShot` in shotApi.ts: drops absent fields and skips the request
entirely when no field remains. -/
def apiSaveShot (shot_id : Nat) (shotData : ShotPatch) (projectId : Nat) :
    Option NetRequest :=
  if shotData.content = none ∧ shotData.t2i_prompt = none ∧ shotData.characters = none
  then none
  else some (.putShot shot_id projectId shotData)

/-- One pending debounced save (`saveTimersRef.current[id]`); the timer
callback closes over the merged record and the project id. -/
structure TimerEntry where
  key : Nat
  pid : Nat
  payload : Shot
deriving Repr, DecidableEq

/-- The in-memory state owned by `useShotManager`. -/
structure ManagerState where
  shots : List Shot
  script : String
  characters : List (String × String)
  currentProjectId : Option Nat
  timers : List TimerEntry
  errorMsg : Option String
deriving Repr, DecidableEq

/-- `updateShotLocal` (useShotManager.ts 291-351): optimistic in-memory
merge, then (when a project is selected and the shot exists) cancel any
pending timer for this shot id and schedule a debounced save carrying the
merged record. -/
def updateShotLocal (st : ManagerState) (id : Nat) (updates : ShotPatch) :
    ManagerState :=
  let shots' := st.shots.map
    (fun shot => if shot.shot_id == id then applyPatch shot updates else shot)
  match st.currentProjectId with
  | none => { st with shots := shots' }
  | some pid =>
    match st.shots.find? (fun s => s.shot_id == id) with
    | none => { st with shots := shots' }
    | some shotToSave =>
      { st with
        shots := shots',
        timers := st.timers.filter (fun t => t.key != id) ++
          [⟨id, pid, applyPatch shotToSave updates⟩] }

/-- Expiry of the debounce window for shot `id`: the scheduled callback
runs `apiSaveShot` on the captured merged record and deletes the timer
entry; a cancelled (absent) timer does nothing. -/
def fireTimer (st : ManagerState) (id : Nat) : ManagerState × List NetRequest :=
  match st.timers.find? (fun t => t.key == id) with
  | none => (st, [])
  | some t =>
    ({ st with timers := st.timers.filter (fun t2 => t2.key != id) },
     (apiSaveShot id (shotAsPatch t.payload) t.pid).toList)

/-- `handleShotBlur` (useShotManager.ts 409-424): clear the pending timer,
then `saveShot` immediately with the merged record (the in-memory list is
not touched; the preceding `updateShotLocal` already applied the patch). -/
def handleShotBlur (st : ManagerState) (id : Nat) (updates : ShotPatch) :
    ManagerState × List NetRequest :=
  let st1 := { st with timers := st.timers.filter (fun t => t.key != id) }
  let updatesToSave :=
    match st.shots.find? (fun s => s.shot_id == id) with
    | some shotToSave => shotAsPatch (applyPatch shotToSave updates)
    | none => updates
  match st.currentProjectId with
  | none => (st1, [])
  | some pid => (st1, (apiSaveShot id updatesToSave pid).toList)

/-- Modelled from the spec: the Persistence Gateway's
`DELETE /shots/{shot_id}` removes that shot and returns the full
reordered list (§4.3, §6); the backend itself is not under frontend/src. -/
def serverDeleteShot (server : List Shot) (id : Nat) : List Shot :=
  server.filter (fun s => s.shot_id != id)

/-- `deleteShot` (useShotManager.ts 429-462): client-side guard on the
last remaining shot before any network call, then delete remotely and
replace the list with the server's canonical response. -/
def deleteShotOp (st : ManagerState) (server : List Shot) (id : Nat) :
    ManagerState × List NetRequest :=
  match st.currentProjectId with
  | none => (st, [])
  | some pid =>
    if st.shots.length ≤ 1 then
      ({ st with errorMsg := some "至少保留一个分镜" }, [])
    else
      ({ st with
          shots := serverDeleteShot server id,
          timers := st.timers.filter (fun t => t.key != id) },
       [.deleteShotReq id pid])

/-- The `ProjectInfo` payload of `GET /shots/?project_id=` as shotApi.ts
declares it; every field may be absent in the parsed JSON body. -/
structure ProjectInfo where
  shots : Option (List Shot)
  script : Option String
  characters : Option (List (String × String))
deriving Repr, DecidableEq

/-- `getProjectInfo` (shotApi.ts 92-111) driven by a fetch oracle: a
network/HTTP failure is caught, logged and turned into `\x7b shots: [] \x7d` —
the caller never sees the error. -/
def getProjectInfoApi (fetch : Except String ProjectInfo) : ProjectInfo :=
  match fetch with
  | .ok info => info
  | .error _ => ⟨some [], none, none⟩

/-- `switchProject` (useShotManager.ts 241-264): set the current project
id, fetch the project info and overwrite shots, script and characters
with the (defaulted) response fields. -/
def switchProject (st : ManagerState) (projectId : Nat)
    (fetch : Except String ProjectInfo) : ManagerState :=
  if st.currentProjectId = some projectId then st
  else
    let info := getProjectInfoApi fetch
    { st with
      currentProjectId := some projectId,
      shots := info.shots.getD [],
      script := info.script.getD "",
      characters := info.characters.getD [] }

/-- User/timer events relevant to the debounced-save claims. -/
inductive Ev where
  | upd (id : Nat) (p : ShotPatch)
  | fire (id : Nat)
  | blur (id : Nat) (p : ShotPatch)
deriving Repr, DecidableEq

/-- One event against the store. -/
def step (st : ManagerState) (e : Ev) : ManagerState × List NetRequest :=
  match e with
  | .upd id p => (updateShotLocal st id p, [])
  | .fire id => fireTimer st id
  | .blur id p => handleShotBlur st id p

/-- A sequence of events, collecting every issued request in order. -/
def run : ManagerState → List Ev → ManagerState × List NetRequest
  | st, [] => (st, [])
  | st, e :: es =>
    let r := step st e
    let r2 := run r.1 es
    (r2.1, r.2 ++ r2.2)

/-! ## Extraction pipeline (editor/page.tsx) -/

/-- Group 1 of the leftmost-lazy match of the fenced-block regular
expression the code uses against the model response: the text between
the first occurrence of the opening fence-with-newline and the shortest
following newline-with-closing-fence. -/
def fencedJsonGroup (response : List Char) : Option (List Char) :=
  match findSub response ("```json\n".toList) with
  | none => none
  | some i =>
    let rest := response.drop (i + 8)
    match findSub rest ("\n```".toList) with
    | none => none
    | some j => some (rest.take j)

/-- Leftmost-lazy match of the loose brace-span regular expression: from
the first opening brace to the first closing brace after it, inclusive. -/
def braceSpan (response : List Char) : Option (List Char) :=
  match findSub response ['\x7b'] with
  | none => none
  | some i =>
    let rest := response.drop i
    match findSub (rest.drop 1) ['\x7d'] with
    | none => none
    | some j => some (rest.take (j + 2))

/-- `Object.keys` on a parsed JSON value; `none` models the `TypeError`
thrown on `null`.  Strings and arrays yield their index keys. -/
def objKeys : JVal → Option (List String)
  | .null => none
  | .bool _ => some []
  | .num _ _ _ => some []
  | .str s => some ((List.range s.length).map toString)
  | .arr xs => some ((List.range xs.length).map toString)
  | .obj kvs => some (kvs.map (fun kv => kv.1))

/-- How response parsing failed (all three surface as the same
user-facing extraction error). -/
inductive ExtractionParseErr where
  | parseFail
  | typeErr
  | noUsableKeys
deriving Repr, DecidableEq

/-- The `Object.keys(parsedResponse).length === 0` guard following a
successful strategy. -/
def checkKeys (v : JVal) : Except ExtractionParseErr JVal :=
  match objKeys v with
  | none => .error .typeErr
  | some [] => .error .noUsableKeys
  | some (_ :: _) => .ok v

/-- The three-strategy response parser of `extractCharactersFromScript`
(page.tsx 222-247) including the usable-keys guard: (1) trimmed
brace-delimited response parsed whole, else (2) if the response mentions
a json fence, the fenced group, else (3) the loose brace span.  When the
selected strategy leaves `parsedResponse` untouched it is still the
empty object, so the keys guard fires. -/
def parseCharacterResponse (response : String) : Except ExtractionParseErr JVal :=
  let t := jsTrim response.toList
  if jsStartsWith t ['\x7b'] && jsEndsWith t ['\x7d'] then
    match jsonParse response with
    | some v => checkKeys v
    | none => .error .parseFail
  else if jsIncludes response.toList ("```json".toList) then
    match fencedJsonGroup response.toList with
    | some g =>
      if g = [] then .error .noUsableKeys
      else
        match jsonParse (String.mk g) with
        | some v => checkKeys v
        | none => .error .parseFail
    | none => .error .noUsableKeys
  else
    match braceSpan response.toList with
    | some g =>
      match jsonParse (String.mk g) with
      | some v => checkKeys v
      | none => .error .parseFail
    | none => .error .noUsableKeys

/-- The OpenAI settings read from browser storage (each field defaulted
to the empty string by `|| ""`, so an absent field and an empty one are
indistinguishable, exactly as under the code's `!` checks). -/
structure OpenAISettings where
  openaiApiKey : String
  openaiModel : String
  openaiUrl : String
deriving Repr, DecidableEq

/-- One of the three generation credentials. -/
inductive CredField where
  | apiKey
  | modelId
  | url
deriving Repr, DecidableEq

/-- The three sequential guards of page.tsx 183-194: each throws on the
first missing credential, so at most one field is ever named. -/
def checkCredentials (s : OpenAISettings) : Option CredField :=
  if s.openaiApiKey = "" then some .apiKey
  else if s.openaiModel = "" then some .modelId
  else if s.openaiUrl = "" then some .url
  else none

/-- Modelled from the spec: the set of absent credentials which, per the
claim, a `ConfigError` should name in full. -/
def missingCredFields (s : OpenAISettings) : List CredField :=
  (if s.openaiApiKey = "" then [CredField.apiKey] else []) ++
  (if s.openaiModel = "" then [CredField.modelId] else []) ++
  (if s.openaiUrl = "" then [CredField.url] else [])

/-- A call leaving the browser during extraction. -/
inductive NetCall where
  | llmChat
  | putCharactersReq
deriving Repr, DecidableEq

/-- Result of one extraction attempt. -/
inductive ExtractOutcome where
  | noProject
  | emptyScript
  | settingsMissing
  | configError (missing : CredField)
  | parseError (e : ExtractionParseErr)
  | committed (chars : JVal)
deriving Repr

/-- `extractCharactersFromScript` (page.tsx 142-307), driven by oracles
for the stored settings and the Generation Gateway's response text.
Returns the outcome and the network calls issued, in order.  On success
the parsed value is committed to the in-memory character map and a
persistence call follows. -/
def extractCharactersFromScript (currentProjectId : Option Nat) (script : String)
    (settings : Option OpenAISettings) (llmResponse : String) :
    ExtractOutcome × List NetCall :=
  match currentProjectId with
  | none => (.noProject, [])
  | some _ =>
    if jsTrimS script = "" then (.emptyScript, [])
    else
      match settings with
      | none => (.settingsMissing, [])
      | some s =>
        match checkCredentials s with
        | some f => (.configError f, [])
        | none =>
          match parseCharacterResponse llmResponse with
          | .error e => (.parseError e, [.llmChat])
          | .ok v => (.committed v, [.llmChat, .putCharactersReq])

/-- The in-memory character map after an extraction attempt: a
successful parse overwrites it via `updateCharactersInfo`, any failure
leaves it untouched.  (`JVal` rather than a string map because the code
performs no runtime validation of the parsed value's shape.) -/
def charactersAfterExtraction (prior : JVal) (response : String) : JVal :=
  match parseCharacterResponse response with
  | .ok v => v
  | .error _ => prior

/-- A brace-delimited span: an opening brace with a closing brace
somewhere after it. -/
def hasBraceSpan (s : String) : Bool :=
  (braceSpan s.toList).isSome

/-! ## Bulk replace (shotApi.ts) -/

/-- JavaScript truthiness of a parsed JSON value (`NaN` cannot arise
from `JSON.parse`). -/
def jsTruthy : JVal → Bool
  | .null => false
  | .bool b => b
  | .num _ m _ => m != 0
  | .str s => s != ""
  | .arr _ => true
  | .obj _ => true

/-- JavaScript truthiness of an optional value (`undefined` is falsy). -/
def jsTruthyO (a : Option JVal) : Bool :=
  match a with
  | some v => jsTruthy v
  | none => false

/-- Property read `o[k]` on an object; `none` is `undefined`. -/
def jsGet (members : List (String × JVal)) (k : String) : Option JVal :=
  (members.find? (fun kv => kv.1 == k)).map (fun kv => kv.2)

/-- `a || b`: keep `a` when truthy, else fall back. -/
def jsOrU (a : Option JVal) (b : JVal) : JVal :=
  match a with
  | some v => if jsTruthy v then v else b
  | none => b

/-- One storyboard record after field mapping. -/
structure MappedShot where
  content : JVal
  t2i_prompt : JVal
  characters : JVal
deriving Repr

/-- The field mapping of `replaceShotsFromJson` (shotApi.ts 609-618):
`original_text || description || content || ''`,
`image_prompt || t2i_prompt || ''`, `characters || []`. -/
def mapJsonShot (shot : List (String × JVal)) : MappedShot :=
  ⟨jsOrU (jsGet shot "original_text")
     (jsOrU (jsGet shot "description") (jsOrU (jsGet shot "content") (.str ""))),
   jsOrU (jsGet shot "image_prompt") (jsOrU (jsGet shot "t2i_prompt") (.str "")),
   jsOrU (jsGet shot "characters") (.arr [])⟩

/-- Modelled from the spec (the claim's reading): for each target field,
the value of the first *present* key among the accepted names,
else the default. -/
def specFirstPresent (shot : List (String × JVal)) (keys : List String) (dflt : JVal) :
    JVal :=
  match keys with
  | [] => dflt
  | k :: rest =>
    match jsGet shot k with
    | some v => v
    | none => specFirstPresent shot rest dflt

/-- Field mapping lifted to an arbitrary array element: property access
on `null` throws, primitives have none of the read properties. -/
def mapJsonShotV (v : JVal) : Option MappedShot :=
  match v with
  | .null => none
  | .obj kvs => some (mapJsonShot kvs)
  | _ => some ⟨.str "", .str "", .arr []⟩

/-- `parsedShots.map(...)`, which throws at the first `null` element. -/
def traverseMapShots : List JVal → Option (List MappedShot)
  | [] => some []
  | v :: rest =>
    match mapJsonShotV v with
    | none => none
    | some m => (traverseMapShots rest).map (fun ms => m :: ms)

/-- Split on newline characters, accumulator first. -/
def splitNlChars : List Char → List Char → List String
  | acc, [] => [String.mk acc.reverse]
  | acc, '\n' :: rest => String.mk acc.reverse :: splitNlChars [] rest
  | acc, c :: rest => splitNlChars (c :: acc) rest

/-- `textContent.split('\n')`. -/
def splitNl (s : String) : List String :=
  splitNlChars [] s.toList

/-- A shot entry of the text-import bulk body (`\x7b content \x7d`). -/
structure TextShot where
  content : String
deriving Repr, DecidableEq

/-- Body of the bulk `PUT /shots/` issued by `replaceShotsFromText`. -/
structure BulkPayloadT where
  shots : List TextShot
  script : String
  characters : List (String × String)
deriving Repr, DecidableEq

/-- Body of the bulk `PUT /shots/` issued by `replaceShotsFromJson`. -/
structure BulkPayloadJ where
  shots : List MappedShot
  script : String
  characters : List (String × String)
deriving Repr

/-- `replaceShotsFromText` (shotApi.ts 351-414): split the text, drop
blank lines (`none` models the throw on empty input: no request), read
the current project info — whose fetch failure `getProjectInfo` has
already swallowed into `\x7b shots: [] \x7d` — and send one bulk write carrying
the new shots plus the script/characters just read. -/
def replaceShotsFromTextPayload (textContent : String)
    (fetch : Except String ProjectInfo) : Option BulkPayloadT :=
  let lines := (splitNl textContent).filter (fun l => jsTrimS l ≠ "")
  if lines = [] then none
  else
    let info := getProjectInfoApi fetch
    some ⟨lines.map (fun l => ⟨jsTrimS l⟩), info.script.getD "", info.characters.getD []⟩

/-- `replaceShotsFromJson` (shotApi.ts 568-648): parse the JSON, require
a `shots` array (else return without any request), map each record, read
the current project info the same way, and send one bulk write. -/
def replaceShotsFromJsonPayload (jsonData : String)
    (fetch : Except String ProjectInfo) : Option BulkPayloadJ :=
  match jsonParse jsonData with
  | none => none
  | some (.obj kvs) =>
    match jsGet kvs "shots" with
    | some (.arr xs) =>
      match traverseMapShots xs with
      | none => none
      | some ms =>
        let info := getProjectInfoApi fetch
        some ⟨ms, info.script.getD "", info.characters.getD []⟩
    | _ => none
  | some _ => none

/-- Modelled from the spec: the project state held by the Persistence
Gateway — one Script, one Character Map and the ordered shots (§3, §6);
the backend is not under frontend/src. -/
structure ServerProject where
  shots : List Shot
  script : String
  characters : List (String × String)
deriving Repr, DecidableEq

/-- Modelled from the spec: the bulk `PUT /shots/?project_id=` (§6)
replaces the shot list (ids and order server-assigned) and stores the
script and character map carried in the same body. -/
def serverApplyBulkT (p : BulkPayloadT) : ServerProject :=
  ⟨((List.range p.shots.length).zip p.shots).map
      (fun iq => ⟨iq.1 + 1, (iq.1 : Int) + 1, iq.2.content, none, none⟩),
   p.script, p.characters⟩

/-- Modelled from the spec: what a subsequent `GET /shots/` (reload)
returns for a stored project. -/
def serverInfo (srv : ServerProject) : ProjectInfo :=
  ⟨some srv.shots, some srv.script, some srv.characters⟩

/-! ## Script save (useShotManager.ts `saveScript`) -/

/-- `saveScript` (useShotManager.ts 611-662): when the script is
trim-brace-delimited and parses as JSON the re-serialized
`JSON.stringify` output is sent, otherwise (including a parse failure,
which is caught) the original text is sent unchanged. -/
def scriptContentToSend (script : String) : String :=
  if jsStartsWith (jsTrim script.toList) ['\x7b'] &&
      jsEndsWith (jsTrim script.toList) ['\x7d'] then
    match jsonParse script with
    | some parsedJson => jsonStringify parsedJson
    | none => script
  else script

/-! ## Helper lemmas -/

theorem applyPatch_shot_id (s : Shot) (p : ShotPatch) :
    (applyPatch s p).shot_id = s.shot_id := rfl

theorem find?_map_update (l : List Shot) (id : Nat) (p : ShotPatch) (s0 : Shot)
    (h : l.find? (fun s => s.shot_id == id) = some s0) :
    (l.map (fun s => if s.shot_id == id then applyPatch s p else s)).find?
      (fun s => s.shot_id == id) = some (applyPatch s0 p) := by
  induction l with
  | nil => simp at h
  | cons a t ih =>
    by_cases ha : (a.shot_id == id) = true
    · rw [List.find?_cons_of_pos (p := fun (s : Shot) => s.shot_id == id) _ ha] at h
      injection h with h0
      subst h0
      simp only [List.map_cons, if_pos ha]
      exact List.find?_cons_of_pos (p := fun (s : Shot) => s.shot_id == id) _
        (by simpa [applyPatch_shot_id] using ha)
    · rw [List.find?_cons_of_neg (p := fun (s : Shot) => s.shot_id == id) _ ha] at h
      simp only [List.map_cons, if_neg ha]
      rw [List.find?_cons_of_neg (p := fun (s : Shot) => s.shot_id == id) _ ha]
      exact ih h

theorem find?_filter_append (l : List TimerEntry) (t : TimerEntry) (id : Nat)
    (h : t.key = id) :
    ((l.filter (fun e => e.key != id)) ++ [t]).find? (fun e => e.key == id) = some t := by
  induction l with
  | nil =>
    simp only [List.filter_nil, List.nil_append]
    exact List.find?_cons_of_pos (p := fun (e : TimerEntry) => e.key == id) _ (by simp [h])
  | cons a rest ih =>
    by_cases ha : (a.key != id) = true
    · rw [List.filter_cons_of_pos (p := fun (e : TimerEntry) => e.key != id) ha, List.cons_append]
      rw [List.find?_cons_of_neg (p := fun (e : TimerEntry) => e.key == id) _ (by simpa using ha)]
      exact ih
    · rw [List.filter_cons_of_neg (p := fun (e : TimerEntry) => e.key != id) ha]
      exact ih

theorem find?_filter_ne_none (l : List TimerEntry) (id : Nat) :
    (l.filter (fun e => e.key != id)).find? (fun e => e.key == id) = none := by
  rw [List.find?_eq_none]
  intro x hx
  have h2 := (List.mem_filter.mp hx).2
  simp only [bne_iff_ne, ne_eq] at h2
  simp [h2]

theorem updateShotLocal_eq (st : ManagerState) (id pid : Nat) (p : ShotPatch) (s0 : Shot)
    (hpid : st.currentProjectId = some pid)
    (hfind : st.shots.find? (fun s => s.shot_id == id) = some s0) :
    updateShotLocal st id p =
      { st with
        shots := st.shots.map (fun s => if s.shot_id == id then applyPatch s p else s),
        timers := st.timers.filter (fun t => t.key != id) ++ [⟨id, pid, applyPatch s0 p⟩] } := by
  unfold updateShotLocal
  rw [hpid, hfind]

theorem run_cons (st : ManagerState) (e : Ev) (es : List Ev) :
    run st (e :: es) =
      ((run (step st e).1 es).1, (step st e).2 ++ (run (step st e).1 es).2) := rfl

theorem run_append_fst (st : ManagerState) (l1 l2 : List Ev) :
    (run st (l1 ++ l2)).1 = (run (run st l1).1 l2).1 := by
  induction l1 generalizing st with
  | nil => rfl
  | cons e es ih => rw [List.cons_append, run_cons, run_cons]; exact ih (step st e).1

theorem run_append_snd (st : ManagerState) (l1 l2 : List Ev) :
    (run st (l1 ++ l2)).2 = (run st l1).2 ++ (run (run st l1).1 l2).2 := by
  induction l1 generalizing st with
  | nil => rfl
  | cons e es ih =>
    rw [List.cons_append, run_cons, run_cons]
    simp only [run_cons, List.append_assoc]
    rw [ih (step st e).1]

theorem run_upds_out_and_state (ps : List ShotPatch) (st : ManagerState)
    (id pid : Nat) (s0 : Shot)
    (hpid : st.currentProjectId = some pid)
    (hfind : st.shots.find? (fun s => s.shot_id == id) = some s0) :
    (run st (ps.map (Ev.upd id))).2 = [] ∧
    (run st (ps.map (Ev.upd id))).1.currentProjectId = some pid ∧
    (run st (ps.map (Ev.upd id))).1.shots.find? (fun s => s.shot_id == id) =
      some (ps.foldl applyPatch s0) ∧
    (ps = [] ∨ (run st (ps.map (Ev.upd id))).1.timers.find? (fun e => e.key == id) =
      some ⟨id, pid, ps.foldl applyPatch s0⟩) := by
  induction ps generalizing st s0 with
  | nil => exact ⟨rfl, hpid, hfind, Or.inl rfl⟩
  | cons p rest ih =>
    have hstep := updateShotLocal_eq st id pid p s0 hpid hfind
    have h1pid : (updateShotLocal st id p).currentProjectId = some pid := by
      rw [hstep]; exact hpid
    have h1find : (updateShotLocal st id p).shots.find? (fun s => s.shot_id == id) =
        some (applyPatch s0 p) := by
      rw [hstep]; exact find?_map_update st.shots id p s0 hfind
    have h1tim : (updateShotLocal st id p).timers.find? (fun e => e.key == id) =
        some ⟨id, pid, applyPatch s0 p⟩ := by
      rw [hstep]; exact find?_filter_append st.timers _ id rfl
    obtain ⟨ho, hp2, hf2, ht2⟩ := ih (updateShotLocal st id p) (applyPatch s0 p) h1pid h1find
    rw [List.map_cons]
    refine ⟨?_, ?_, ?_, Or.inr ?_⟩
    · rw [run_cons]
      simpa [step] using ho
    · rw [run_cons]
      simpa [step] using hp2
    · rw [run_cons]
      simpa [step] using hf2
    · rw [run_cons]
      rcases ht2 with hnil | htim
      · subst hnil
        simpa [step, run] using h1tim
      · simpa [step] using htim

theorem length_filter_ne_ge (l : List Shot) (id : Nat)
    (hnd : (l.map Shot.shot_id).Nodup) :
    l.length ≤ (l.filter (fun s => s.shot_id != id)).length + 1 := by
  induction l with
  | nil => simp
  | cons a t ih =>
    rw [List.map_cons, List.nodup_cons] at hnd
    by_cases ha : a.shot_id = id
    · have hall : ∀ s ∈ t, (fun (s : Shot) => s.shot_id != id) s = true := by
        intro s hs
        have hne : s.shot_id ≠ id := by
          intro he
          apply hnd.1
          rw [ha, ← he]
          exact List.mem_map_of_mem Shot.shot_id hs
        simpa using hne
      rw [List.filter_cons_of_neg (p := fun (s : Shot) => s.shot_id != id) (by simpa using ha)]
      rw [List.filter_eq_self.mpr hall]
      simp
    · rw [List.filter_cons_of_pos (p := fun (s : Shot) => s.shot_id != id) (by simpa using ha)]
      simpa using Nat.succ_le_succ (ih hnd.2)

/-! ## Claim theorems -/

/-- C1: for a sequence of `updateShotLocal` calls on the same shot id
inside one debounce window (each call cancels the previous timer, so the
window only expires after the last one), the expiry issues exactly one
save request to the Persistence Gateway, and the record it carries is
the shot's in-memory state after the last call — every patch of the
sequence applied in order to the shot's state at the start. -/
theorem mutateShotLocal_debounced_single_merged_save
    (st : ManagerState) (id pid : Nat) (s0 : Shot) (p : ShotPatch) (ps : List ShotPatch)
    (hpid : st.currentProjectId = some pid)
    (hfind : st.shots.find? (fun s => s.shot_id == id) = some s0) :
    (run st ((p :: ps).map (Ev.upd id) ++ [Ev.fire id])).2 =
      [NetRequest.putShot id pid (shotAsPatch ((p :: ps).foldl applyPatch s0))] ∧
    (run st ((p :: ps).map (Ev.upd id) ++ [Ev.fire id])).1.shots.find?
      (fun s => s.shot_id == id) = some ((p :: ps).foldl applyPatch s0) := by
  obtain ⟨ho, hp2, hf2, ht2⟩ := run_upds_out_and_state (p :: ps) st id pid s0 hpid hfind
  have htim := ht2.resolve_left (by simp)
  have hfire : fireTimer (run st ((p :: ps).map (Ev.upd id))).1 id =
      ({ (run st ((p :: ps).map (Ev.upd id))).1 with
          timers := (run st ((p :: ps).map (Ev.upd id))).1.timers.filter
            (fun t2 => t2.key != id) },
        [NetRequest.putShot id pid (shotAsPatch ((p :: ps).foldl applyPatch s0))]) := by
    unfold fireTimer
    rw [htim]
    simp [apiSaveShot, shotAsPatch]
  have hsingle : run (run st ((p :: ps).map (Ev.upd id))).1 [Ev.fire id] =
      ((fireTimer (run st ((p :: ps).map (Ev.upd id))).1 id).1,
        (fireTimer (run st ((p :: ps).map (Ev.upd id))).1 id).2 ++ []) := rfl
  constructor
  · rw [run_append_snd, ho, hsingle, hfire]
    simp
  · rw [run_append_fst, hsingle]
    show ((fireTimer (run st ((p :: ps).map (Ev.upd id))).1 id).1.shots.find?
      (fun s => s.shot_id == id)) = _
    rw [hfire]
    exact hf2

/-- C1 witness: two merged edits to shot 1 of project 7 inside one
window produce exactly the one save carrying both patches merged. -/
theorem mutateShotLocal_debounced_witness :
    (run ⟨[⟨1, 1, "c", none, none⟩], "", [], some 7, [], none⟩
        [Ev.upd 1 ⟨some "x", none, none⟩, Ev.upd 1 ⟨none, some "p", none⟩, Ev.fire 1]).2 =
      [NetRequest.putShot 1 7 ⟨some "x", some "p", none⟩] :=
  (mutateShotLocal_debounced_single_merged_save
    ⟨[⟨1, 1, "c", none, none⟩], "", [], some 7, [], none⟩ 1 7 ⟨1, 1, "c", none, none⟩
    ⟨some "x", none, none⟩ [⟨none, some "p", none⟩] rfl rfl).1

/-- C2 (code evaluation at the failing input): switching from loaded
project 1 — one shot, script "S", characters containing A — to project 2
while the `GET /shots/` fetch fails does not leave the prior state
untouched: `getProjectInfo` swallows the error and `switchProject`
overwrites shots, script and characters with empty values. -/
theorem switchProject_fetch_failure_clobbers_prior_state :
    (switchProject ⟨[⟨1, 1, "hello", none, none⟩], "S", [("A", "a")], some 1, [], none⟩
        2 (.error "HTTP 500")).shots = [] ∧
    (switchProject ⟨[⟨1, 1, "hello", none, none⟩], "S", [("A", "a")], some 1, [], none⟩
        2 (.error "HTTP 500")).script = "" ∧
    (switchProject ⟨[⟨1, 1, "hello", none, none⟩], "S", [("A", "a")], some 1, [], none⟩
        2 (.error "HTTP 500")).characters = [] ∧
    ([⟨1, 1, "hello", none, none⟩] : List Shot) ≠ [] ∧ "S" ≠ "" ∧
    ([("A", "a")] : List (String × String)) ≠ [] :=
  ⟨rfl, rfl, rfl, by decide, by decide, by decide⟩

/-- C7: with exactly one shot in memory, `deleteShot` is rejected — no
network request, list unchanged, only the error message set — and (for a
list mirroring the server's, with server-unique ids) every `deleteShot`
execution leaves at least one shot. -/
theorem deleteShot_enforces_min_one_shot
    (st : ManagerState) (server : List Shot) (id pid : Nat)
    (hpid : st.currentProjectId = some pid) :
    (st.shots.length = 1 →
      deleteShotOp st server id = ({ st with errorMsg := some "至少保留一个分镜" }, [])) ∧
    (st.shots = server → (st.shots.map Shot.shot_id).Nodup → 1 ≤ st.shots.length →
      1 ≤ (deleteShotOp st server id).1.shots.length) := by
  have hred : deleteShotOp st server id =
      if st.shots.length ≤ 1 then
        ({ st with errorMsg := some "至少保留一个分镜" }, [])
      else
        ({ st with
            shots := serverDeleteShot server id,
            timers := st.timers.filter (fun t => t.key != id) },
          [.deleteShotReq id pid]) := by
    unfold deleteShotOp
    rw [hpid]
  constructor
  · intro h1
    rw [hred, if_pos (by omega)]
  · intro hsrv hnd hlen
    rw [hred]
    by_cases hle : st.shots.length ≤ 1
    · rw [if_pos hle]
      exact hlen
    · rw [if_neg hle]
      have hfl := length_filter_ne_ge server id (by rw [← hsrv]; exact hnd)
      have hsl : server.length = st.shots.length := by rw [hsrv]
      simp only [serverDeleteShot]
      omega

/-- C7 witness: deleting the only shot of project 3 is rejected with no
request and an unchanged list; the invariant conclusion also holds. -/
theorem deleteShot_min_one_shot_witness :
    deleteShotOp ⟨[⟨1, 1, "only", none, none⟩], "", [], some 3, [], none⟩
        [⟨1, 1, "only", none, none⟩] 1 =
      ({ shots := [⟨1, 1, "only", none, none⟩], script := "", characters := [],
         currentProjectId := some 3, timers := [],
         errorMsg := some "至少保留一个分镜" }, []) ∧
    1 ≤ (deleteShotOp ⟨[⟨1, 1, "only", none, none⟩], "", [], some 3, [], none⟩
        [⟨1, 1, "only", none, none⟩] 1).1.shots.length := by
  have h := deleteShot_enforces_min_one_shot
    ⟨[⟨1, 1, "only", none, none⟩], "", [], some 3, [], none⟩
    [⟨1, 1, "only", none, none⟩] 1 3 rfl
  exact ⟨h.1 rfl, h.2 rfl (by decide) (by decide)⟩

/-- C8: with a pending debounced save for the shot, `handleShotBlur`
cancels that timer first and issues the one immediate save carrying the
merged record; the cancelled timer can never fire afterwards, so the
blur-triggered save is the only save issued. -/
theorem flushShotSave_cancels_pending_and_saves_once
    (st : ManagerState) (id pid : Nat) (s0 : Shot) (p : ShotPatch) (t : TimerEntry)
    (hpid : st.currentProjectId = some pid)
    (hfind : st.shots.find? (fun s => s.shot_id == id) = some s0)
    (htimer : st.timers.find? (fun e => e.key == id) = some t) :
    (run st [Ev.blur id p, Ev.fire id]).2 =
      [NetRequest.putShot id pid (shotAsPatch (applyPatch s0 p))] ∧
    (run st [Ev.blur id p, Ev.fire id]).1.timers.find? (fun e => e.key == id) = none := by
  have hblur : handleShotBlur st id p =
      ({ st with timers := st.timers.filter (fun e => e.key != id) },
        [NetRequest.putShot id pid (shotAsPatch (applyPatch s0 p))]) := by
    unfold handleShotBlur
    rw [hfind, hpid]
    simp [apiSaveShot, shotAsPatch]
  have hfire : fireTimer { st with timers := st.timers.filter (fun e => e.key != id) } id =
      ({ st with timers := st.timers.filter (fun e => e.key != id) }, []) := by
    unfold fireTimer
    rw [find?_filter_ne_none]
  constructor
  · simp only [run_cons, run, step]
    rw [hblur, hfire]
    simp
  · simp only [run_cons, run, step]
    rw [hblur, hfire]
    exact find?_filter_ne_none st.timers id

/-- `a || b` keeps a truthy left operand. -/
theorem jsOrU_pos (a : Option JVal) (b v : JVal) (h : a = some v)
    (ht : jsTruthy v = true) : jsOrU a b = v := by
  rw [h]
  simp [jsOrU, ht]

/-- `a || b` falls through a falsy (or absent) left operand. -/
theorem jsOrU_neg (a : Option JVal) (b : JVal) (h : jsTruthyO a = false) :
    jsOrU a b = b := by
  cases a with
  | none => rfl
  | some v =>
    simp only [jsTruthyO] at h
    simp [jsOrU, h]

/-- C6: the three-strategy response parser maps the plain, fenced and
noisy carriers of the same JSON object to the identical character map. -/
theorem extraction_three_strategies_identical_map :
    parseCharacterResponse "\x7b\"Alice\":\"a hero\"\x7d" =
      .ok (.obj [("Alice", .str "a hero")]) ∧
    parseCharacterResponse "```json\n\x7b\"Alice\":\"a hero\"\x7d\n```" =
      .ok (.obj [("Alice", .str "a hero")]) ∧
    parseCharacterResponse "noise \x7b\"Alice\":\"a hero\"\x7d noise" =
      .ok (.obj [("Alice", .str "a hero")]) :=
  ⟨rfl, rfl, rfl⟩

/-- C5 (code evaluation at the failing input): a response holding a
fenced JSON string — and no brace span anywhere — is not rejected: the
fenced strategy parses `"ab"`, `Object.keys` yields its two index keys,
and the pipeline commits the bare string as the character map, changing
it and issuing the persistence call. -/
theorem extraction_no_brace_fenced_string_commits :
    hasBraceSpan "```json\n\"ab\"\n```" = false ∧
    parseCharacterResponse "```json\n\"ab\"\n```" = .ok (.str "ab") ∧
    charactersAfterExtraction (.obj [("Old", .str "x")]) "```json\n\"ab\"\n```" =
      .str "ab" ∧
    extractCharactersFromScript (some 1) "script" (some ⟨"k", "m", "u"⟩)
      "```json\n\"ab\"\n```" = (.committed (.str "ab"), [.llmChat, .putCharactersReq]) ∧
    JVal.str "ab" ≠ JVal.obj [("Old", .str "x")] :=
  ⟨rfl, rfl, rfl, rfl, by intro h; exact JVal.noConfusion h⟩

/-- C4 counterexample: with the key and the model both missing, the code
fails after the first sequential check — the `ConfigError` names only
the API key — while the full set of absent fields has two elements. -/
theorem configError_names_only_first_missing :
    extractCharactersFromScript (some 1) "s" (some ⟨"", "", "u"⟩) "resp" =
      (.configError .apiKey, []) ∧
    missingCredFields ⟨"", "", "u"⟩ = [.apiKey, .modelId] ∧
    ([CredField.apiKey] : List CredField) ≠ [.apiKey, .modelId] :=
  ⟨rfl, rfl, by decide⟩

/-- C4 amended: whenever any of the three credentials is missing the
pipeline fails with a `ConfigError` before any network call, naming the
first missing field in the order key, model, url — the head of the
missing set. -/
theorem configError_fails_fast_first_missing
    (pid : Nat) (script : String) (s : OpenAISettings) (resp : String)
    (hscript : jsTrimS script ≠ "")
    (hmiss : missingCredFields s ≠ []) :
    ∃ f, (missingCredFields s).head? = some f ∧
      extractCharactersFromScript (some pid) script (some s) resp =
        (.configError f, []) := by
  have hred : extractCharactersFromScript (some pid) script (some s) resp =
      if jsTrimS script = "" then (.emptyScript, [])
      else
        match checkCredentials s with
        | some f => (.configError f, [])
        | none =>
          match parseCharacterResponse resp with
          | .error e => (.parseError e, [.llmChat])
          | .ok v => (.committed v, [.llmChat, .putCharactersReq]) := rfl
  rw [hred, if_neg hscript]
  by_cases hk : s.openaiApiKey = ""
  · refine ⟨.apiKey, ?_, ?_⟩
    · simp [missingCredFields, hk]
    · simp [checkCredentials, hk]
  · by_cases hm : s.openaiModel = ""
    · refine ⟨.modelId, ?_, ?_⟩
      · simp [missingCredFields, hk, hm]
      · simp [checkCredentials, hk, hm]
    · by_cases hu : s.openaiUrl = ""
      · refine ⟨.url, ?_, ?_⟩
        · simp [missingCredFields, hk, hm, hu]
        · simp [checkCredentials, hk, hm, hu]
      · exact absurd (by simp [missingCredFields, hk, hm, hu]) hmiss

/-- C4 amended witness: a missing key with model and url present yields
the `ConfigError` naming the key, with no network call. -/
theorem configError_fails_fast_witness :
    ∃ f, (missingCredFields ⟨"", "m", "u"⟩).head? = some f ∧
      extractCharactersFromScript (some 1) "script" (some ⟨"", "m", "u"⟩) "r" =
        (.configError f, []) :=
  configError_fails_fast_first_missing 1 "script" ⟨"", "m", "u"⟩ "r"
    (by decide) (by decide)

/-- C9 counterexample: a record whose `original_text` is present but
empty while `description` is present and non-empty: the `||` chain skips
the present-but-falsy key and picks the description — not the value of
the first present key. -/
theorem field_mapping_skips_present_falsy_key :
    (mapJsonShot [("original_text", .str ""), ("description", .str "d")]).content =
      .str "d" ∧
    specFirstPresent [("original_text", .str ""), ("description", .str "d")]
      ["original_text", "description", "content"] (.str "") = .str "" ∧
    JVal.str "d" ≠ JVal.str "" :=
  ⟨rfl, rfl, by intro h; injection h with h2; exact absurd h2 (by decide)⟩

/-- C9 amended: the mapping picks, for each target field, the first
accepted key whose value is JavaScript-truthy (for strings: non-empty),
falling back to the empty string — and `characters` when truthy,
falling back to the empty list. -/
theorem field_mapping_first_truthy (shot : List (String × JVal)) :
    ((∀ v, jsGet shot "original_text" = some v → jsTruthy v = true →
        (mapJsonShot shot).content = v) ∧
      (jsTruthyO (jsGet shot "original_text") = false →
        ∀ v, jsGet shot "description" = some v → jsTruthy v = true →
          (mapJsonShot shot).content = v) ∧
      (jsTruthyO (jsGet shot "original_text") = false →
        jsTruthyO (jsGet shot "description") = false →
        ∀ v, jsGet shot "content" = some v → jsTruthy v = true →
          (mapJsonShot shot).content = v) ∧
      (jsTruthyO (jsGet shot "original_text") = false →
        jsTruthyO (jsGet shot "description") = false →
        jsTruthyO (jsGet shot "content") = false →
        (mapJsonShot shot).content = .str "")) ∧
    ((∀ v, jsGet shot "image_prompt" = some v → jsTruthy v = true →
        (mapJsonShot shot).t2i_prompt = v) ∧
      (jsTruthyO (jsGet shot "image_prompt") = false →
        ∀ v, jsGet shot "t2i_prompt" = some v → jsTruthy v = true →
          (mapJsonShot shot).t2i_prompt = v) ∧
      (jsTruthyO (jsGet shot "image_prompt") = false →
        jsTruthyO (jsGet shot "t2i_prompt") = false →
        (mapJsonShot shot).t2i_prompt = .str "")) ∧
    ((∀ v, jsGet shot "characters" = some v → jsTruthy v = true →
        (mapJsonShot shot).characters = v) ∧
      (jsTruthyO (jsGet shot "characters") = false →
        (mapJsonShot shot).characters = .arr [])) := by
  refine ⟨⟨?_, ?_, ?_, ?_⟩, ⟨?_, ?_, ?_⟩, ⟨?_, ?_⟩⟩
  · intro v h ht
    exact jsOrU_pos _ _ _ h ht
  · intro h1 v h ht
    show jsOrU _ _ = v
    rw [jsOrU_neg _ _ h1]
    exact jsOrU_pos _ _ _ h ht
  · intro h1 h2 v h ht
    show jsOrU _ _ = v
    rw [jsOrU_neg _ _ h1, jsOrU_neg _ _ h2]
    exact jsOrU_pos _ _ _ h ht
  · intro h1 h2 h3
    show jsOrU _ _ = _
    rw [jsOrU_neg _ _ h1, jsOrU_neg _ _ h2, jsOrU_neg _ _ h3]
  · intro v h ht
    exact jsOrU_pos _ _ _ h ht
  · intro h1 v h ht
    show jsOrU _ _ = v
    rw [jsOrU_neg _ _ h1]
    exact jsOrU_pos _ _ _ h ht
  · intro h1 h2
    show jsOrU _ _ = _
    rw [jsOrU_neg _ _ h1, jsOrU_neg _ _ h2]
  · intro v h ht
    exact jsOrU_pos _ _ _ h ht
  · intro h1
    show jsOrU _ _ = _
    rw [jsOrU_neg _ _ h1]

/-- C9 amended witness: with `original_text` absent the non-empty
`description` is picked, and a present `characters` array is kept. -/
theorem field_mapping_first_truthy_witness :
    (mapJsonShot [("description", .str "d"), ("characters", .arr [.str "A"])]).content =
      .str "d" ∧
    (mapJsonShot [("description", .str "d"), ("characters", .arr [.str "A"])]).characters =
      .arr [.str "A"] := by
  have h := field_mapping_first_truthy
    [("description", .str "d"), ("characters", .arr [.str "A"])]
  exact ⟨h.1.2.1 rfl (.str "d") rfl rfl, h.2.2.1 (.arr [.str "A"]) rfl rfl⟩

/-- C3 counterexample: when the preliminary `getProjectInfo` read fails,
the bulk replace still goes out but carries an empty script and an empty
character map; the server then stores those, so the reload no longer
returns the prior script "S" nor the character A. -/
theorem replaceAllShots_read_failure_drops_state :
    replaceShotsFromTextPayload "new shot text" (.error "network") =
      some ⟨[⟨"new shot text"⟩], "", []⟩ ∧
    (serverApplyBulkT ⟨[⟨"new shot text"⟩], "", []⟩).script = "" ∧
    (serverApplyBulkT ⟨[⟨"new shot text"⟩], "", []⟩).characters = [] ∧
    ("" : String) ≠ "S" ∧ ([] : List (String × String)) ≠ [("A", "a")] :=
  ⟨rfl, rfl, rfl, by decide, by decide⟩

/-- C3 amended: when the preliminary read succeeds — returning the
server's current script and character map — both bulk-replace variants
include exactly those values in the same write, so the replace-then-
reload round trip preserves them. -/
theorem replaceAllShots_preserves_on_successful_read
    (srv : ServerProject) (text jsonData : String)
    (pT : BulkPayloadT) (pJ : BulkPayloadJ)
    (hT : replaceShotsFromTextPayload text (.ok (serverInfo srv)) = some pT)
    (hJ : replaceShotsFromJsonPayload jsonData (.ok (serverInfo srv)) = some pJ) :
    pT.script = srv.script ∧ pT.characters = srv.characters ∧
    (serverApplyBulkT pT).script = srv.script ∧
    (serverApplyBulkT pT).characters = srv.characters ∧
    pJ.script = srv.script ∧ pJ.characters = srv.characters := by
  simp only [replaceShotsFromTextPayload, getProjectInfoApi, serverInfo,
    Option.getD_some] at hT
  by_cases hl : ((splitNl text).filter (fun l => jsTrimS l ≠ "")) = []
  · rw [if_pos hl] at hT
    cases hT
  · rw [if_neg hl] at hT
    have hT2 := Option.some.inj hT
    simp only [replaceShotsFromJsonPayload, getProjectInfoApi, serverInfo,
      Option.getD_some] at hJ
    have hJfields : pJ.script = srv.script ∧ pJ.characters = srv.characters := by
      cases hp : jsonParse jsonData with
      | none => rw [hp] at hJ; cases hJ
      | some v =>
        rw [hp] at hJ
        cases v with
        | obj kvs =>
          have hJ3 : (match jsGet kvs "shots" with
              | some (JVal.arr xs) =>
                (match traverseMapShots xs with
                  | none => none
                  | some ms =>
                    some (⟨ms, srv.script, srv.characters⟩ : BulkPayloadJ))
              | _ => none) = some pJ := hJ
          cases hg : jsGet kvs "shots" with
          | none => rw [hg] at hJ3; cases hJ3
          | some w =>
            rw [hg] at hJ3
            cases w with
            | arr xs =>
              have hJ4 : (match traverseMapShots xs with
                  | none => none
                  | some ms =>
                    some (⟨ms, srv.script, srv.characters⟩ : BulkPayloadJ)) =
                  some pJ := hJ3
              cases hm : traverseMapShots xs with
              | none => rw [hm] at hJ4; cases hJ4
              | some ms =>
                rw [hm] at hJ4
                have hJ2 := Option.some.inj hJ4
                rw [← hJ2]
                exact ⟨rfl, rfl⟩
            | null => cases hJ3
            | bool b => cases hJ3
            | num a m e => cases hJ3
            | str s => cases hJ3
            | obj kvs2 => cases hJ3
        | null => cases hJ
        | bool b => cases hJ
        | num a m e => cases hJ
        | str s => cases hJ
        | arr xs => cases hJ
    rw [← hT2]
    exact ⟨rfl, rfl, rfl, rfl, hJfields.1, hJfields.2⟩

/-- C3 amended witness: a concrete round trip with script "S" and
character A surviving both bulk-replace variants. -/
theorem replaceAllShots_preserves_witness :
    (⟨[⟨"x"⟩, ⟨"y"⟩], "S", [("A", "a")]⟩ : BulkPayloadT).script = "S" ∧
    (⟨[⟨"x"⟩, ⟨"y"⟩], "S", [("A", "a")]⟩ : BulkPayloadT).characters = [("A", "a")] ∧
    (serverApplyBulkT ⟨[⟨"x"⟩, ⟨"y"⟩], "S", [("A", "a")]⟩).script = "S" ∧
    (serverApplyBulkT ⟨[⟨"x"⟩, ⟨"y"⟩], "S", [("A", "a")]⟩).characters = [("A", "a")] ∧
    (⟨[⟨.str "c", .str "", .arr []⟩], "S", [("A", "a")]⟩ : BulkPayloadJ).script = "S" ∧
    (⟨[⟨.str "c", .str "", .arr []⟩], "S", [("A", "a")]⟩ : BulkPayloadJ).characters =
      [("A", "a")] :=
  replaceAllShots_preserves_on_successful_read
    ⟨[], "S", [("A", "a")]⟩ "x\ny" "\x7b\"shots\":[\x7b\"content\":\"c\"\x7d]\x7d"
    ⟨[⟨"x"⟩, ⟨"y"⟩], "S", [("A", "a")]⟩ ⟨[⟨.str "c", .str "", .arr []⟩], "S", [("A", "a")]⟩
    rfl rfl

/-- C10: `saveScript` sends the re-serialization
`JSON.stringify(JSON.parse(script))` whenever the trimmed script is
brace-delimited and parses as JSON, sends the original text in every
other case, and consequently does not always persist the script
verbatim. -/
theorem saveScript_reserializes_json_scripts :
    (∀ s v, jsStartsWith (jsTrim s.toList) ['\x7b'] = true →
        jsEndsWith (jsTrim s.toList) ['\x7d'] = true →
        jsonParse s = some v → scriptContentToSend s = jsonStringify v) ∧
    (∀ s, (jsStartsWith (jsTrim s.toList) ['\x7b'] = false ∨
        jsEndsWith (jsTrim s.toList) ['\x7d'] = false ∨
        jsonParse s = none) → scriptContentToSend s = s) ∧
    scriptContentToSend " \x7b \"a\" : \"b\" \x7d " ≠ " \x7b \"a\" : \"b\" \x7d " := by
  refine ⟨?_, ?_, by decide⟩
  · intro s v h1 h2 h3
    unfold scriptContentToSend
    rw [h1, h2, h3]
    rfl
  · intro s hcase
    unfold scriptContentToSend
    rcases hcase with h | h | h
    · rw [h]
      simp
    · rw [h]
      simp
    · rw [h]
      split <;> rfl

/-- C10 witness: a spaced JSON object script is re-serialized compactly;
a non-JSON script is sent unchanged. -/
theorem saveScript_reserializes_witness :
    scriptContentToSend " \x7b \"a\" : \"b\" \x7d " = jsonStringify (.obj [("a", .str "b")]) ∧
    scriptContentToSend "plain text" = "plain text" :=
  ⟨saveScript_reserializes_json_scripts.1 " \x7b \"a\" : \"b\" \x7d "
      (.obj [("a", .str "b")]) rfl rfl rfl,
    saveScript_reserializes_json_scripts.2.1 "plain text" (Or.inl rfl)⟩

/-- C8 witness: a pending timer for shot 1 is cancelled by the blur; the
immediate save is the only request and the timer table is clear. -/
theorem flushShotSave_witness :
    (run ⟨[⟨1, 1, "c", none, none⟩], "", [], some 7, [⟨1, 7, ⟨1, 1, "old", none, none⟩⟩], none⟩
        [Ev.blur 1 ⟨some "new", none, none⟩, Ev.fire 1]).2 =
      [NetRequest.putShot 1 7 ⟨some "new", none, none⟩] :=
  (flushShotSave_cancels_pending_and_saves_once
    ⟨[⟨1, 1, "c", none, none⟩], "", [], some 7, [⟨1, 7, ⟨1, 1, "old", none, none⟩⟩], none⟩
    1 7 ⟨1, 1, "c", none, none⟩ ⟨some "new", none, none⟩ ⟨1, 7, ⟨1, 1, "old", none, none⟩⟩
    rfl rfl rfl).1

end VideoX
